import Mathlib

/-!
Verification of the dnt transform orchestrator (`rs-lib/src/lib.rs`) and the
syntactic-context classifier (`rs-lib/src/visitors/analyze/helpers.rs`).

The classifier is embedded over a node type that records, for every syntax
node, exactly the data the three predicates consult: its kind, its span, the
`typeof` operator flag, the condition / left-hand-side / type-annotation
sub-spans, and its parent.  The orchestrator is embedded with its external
collaborators (module-graph construction, the per-module rewrite passes, the
path mapping) supplied as explicit inputs, mirroring the interface boundary
the specification draws in its section 4.3/4.4.
-/

/-- Byte span of a syntax node; `contains` mirrors swc's
`Span::contains`: `self.lo <= other.lo && other.hi <= self.hi`. -/
structure Span where
  lo : Nat
  hi : Nat
deriving DecidableEq, Repr

def Span.contains (a b : Span) : Bool :=
  decide (a.lo ≤ b.lo) && decide (b.hi ≤ a.hi)

/-- Unary operators of the swc grammar (`UnaryOp`). -/
inductive UnaryOp where
  | minus
  | plus
  | bang
  | tilde
  | typeOf
  | voidOp
  | deleteOp
deriving DecidableEq, Repr

/-- Every syntax-node kind appearing in the exhaustive match of `is_in_type`
(`helpers.rs` lines 29-211), which covers the whole `deno_ast::view::Node`
enum, in the order the source lists them. -/
inductive NodeKind where
  | ArrayLit | ArrayPat | ArrowExpr | AssignExpr | AssignPat | AssignPatProp
  | AssignProp | AwaitExpr | BinExpr | BindingIdent | BlockStmt | BreakStmt
  | CallExpr | CatchClause | Class | ClassDecl | ClassExpr | ClassMethod
  | ClassProp | ComputedPropName | CondExpr | Constructor | ContinueStmt
  | DebuggerStmt | Decorator | DoWhileStmt | EmptyStmt | ExportAll
  | ExportDecl | ExportDefaultDecl | ExportDefaultExpr | ExportDefaultSpecifier
  | ExportNamedSpecifier | ExportNamespaceSpecifier | ExprOrSpread | ExprStmt
  | FnDecl | FnExpr | ForInStmt | ForOfStmt | ForStmt | Function | GetterProp
  | IfStmt | ImportDecl | ImportDefaultSpecifier | ImportNamedSpecifier
  | ImportStarAsSpecifier | Invalid | UnaryExpr | UpdateExpr | VarDecl
  | VarDeclarator | WhileStmt | WithStmt | YieldExpr | JSXAttr
  | JSXClosingElement | JSXClosingFragment | JSXElement | JSXEmptyExpr
  | JSXExprContainer | JSXFragment | JSXMemberExpr | JSXNamespacedName
  | JSXOpeningElement | JSXOpeningFragment | JSXSpreadChild | JSXText
  | KeyValuePatProp | KeyValueProp | LabeledStmt | MetaPropExpr | MethodProp
  | Module | NamedExport | NewExpr | ObjectLit | ObjectPat | OptChainExpr
  | Param | ParenExpr | PrivateMethod | PrivateName | PrivateProp | Regex
  | RestPat | ReturnStmt | Script | SeqExpr | SetterProp | SpreadElement
  | StaticBlock | Super | SwitchCase | SwitchStmt | TaggedTpl | ThisExpr
  | ThrowStmt | Tpl | TplElement | TryStmt | TsEnumDecl | TsEnumMember
  | TsExportAssignment | TsExternalModuleRef | TsImportEqualsDecl
  | TsModuleBlock | TsModuleDecl | TsNamespaceDecl | TsNamespaceExportDecl
  | TsArrayType | TsCallSignatureDecl | TsConditionalType | TsConstAssertion
  | TsConstructSignatureDecl | TsConstructorType | TsExprWithTypeArgs
  | TsFnType | TsGetterSignature | TsImportType | TsIndexSignature
  | TsIndexedAccessType | TsInferType | TsInterfaceBody | TsInterfaceDecl
  | TsIntersectionType | TsKeywordType | TsLitType | TsMappedType
  | TsMethodSignature | TsNonNullExpr | TsOptionalType | TsParamProp
  | TsParenthesizedType | TsPropertySignature | TsQualifiedName | TsRestType
  | TsSetterSignature | TsThisType | TsTplLitType | TsTupleElement
  | TsTupleType | TsTypeAliasDecl | TsTypeAnn | TsTypeLit | TsTypeOperator
  | TsTypeParam | TsTypeParamDecl | TsTypeParamInstantiation | TsTypePredicate
  | TsTypeQuery | TsTypeRef | TsUnionType
  | TsTypeAssertion | TsAsExpr
  | BigInt | Bool | Null | Number | MemberExpr | Str | Ident
deriving DecidableEq, Repr

/-- A syntax node in its tree context.  Besides kind, span and parent it
carries the per-kind data the three predicates read: the unary operator
(meaningful when the kind is `UnaryExpr`), the span of the condition
(`CondExpr::test` / `IfStmt::test`), the span of the assignment left-hand
side (`AssignExpr::left`), and the span of the type annotation
(`TsTypeAssertion::type_ann` / `TsAsExpr::type_ann`). -/
inductive Node where
  | mk (kind : NodeKind) (span : Span) (op : UnaryOp)
      (testSpan leftSpan typeAnnSpan : Span) (parent : Option Node)

def Node.kind : Node → NodeKind
  | .mk k _ _ _ _ _ _ => k

def Node.span : Node → Span
  | .mk _ s _ _ _ _ _ => s

def Node.op : Node → UnaryOp
  | .mk _ _ o _ _ _ _ => o

def Node.testSpan : Node → Span
  | .mk _ _ _ t _ _ _ => t

def Node.leftSpan : Node → Span
  | .mk _ _ _ _ l _ _ => l

def Node.typeAnnSpan : Node → Span
  | .mk _ _ _ _ _ ta _ => ta

def Node.parent : Node → Option Node
  | .mk _ _ _ _ _ _ p => p

/-- Ancestor chain of a node, nearest parent first (`node.ancestors()`). -/
def Node.ancestors : Node → List Node
  | .mk _ _ _ _ _ _ none => []
  | .mk _ _ _ _ _ _ (some p) => p :: Node.ancestors p

/-- Direct embedding of `is_directly_in_condition` (`helpers.rs` lines 8-18):
matches on the immediate parent's kind. -/
def is_directly_in_condition (node : Node) : Bool :=
  match node.parent with
  | some p =>
    match p.kind with
    | .BinExpr => true
    | .IfStmt => true
    | .UnaryExpr => p.op = UnaryOp.typeOf
    | .CondExpr => p.testSpan.contains node.span
    | _ => false
  | none => false

/-- Loop body of `is_in_left_hand_assignment`: walks the ancestor list and
lets the first assignment expression decide. -/
def lhsAssignWalk (nodeSpan : Span) : List Node → Bool
  | [] => false
  | a :: rest =>
    if a.kind = NodeKind.AssignExpr then a.leftSpan.contains nodeSpan
    else lhsAssignWalk nodeSpan rest

/-- Direct embedding of `is_in_left_hand_assignment` (`helpers.rs` lines
20-27). -/
def is_in_left_hand_assignment (node : Node) : Bool :=
  lhsAssignWalk node.span node.ancestors

/-- The exhaustive per-ancestor classification inside `is_in_type`
(`helpers.rs` lines 32-203): `some false` for the always-value kinds,
`some true` for the always-type kinds, span containment for the two
maybe-a-type kinds, `none` (keep walking) for the kinds that still need
more info.  The match has no wildcard, mirroring the source's
exhaustiveness over the node-kind enum. -/
def classifyForType (parent : Node) (nodeSpan : Span) : Option Bool :=
  match parent.kind with
  | .ArrayLit | .ArrayPat | .ArrowExpr | .AssignExpr | .AssignPat
  | .AssignPatProp | .AssignProp | .AwaitExpr | .BinExpr | .BindingIdent
  | .BlockStmt | .BreakStmt | .CallExpr | .CatchClause | .Class | .ClassDecl
  | .ClassExpr | .ClassMethod | .ClassProp | .ComputedPropName | .CondExpr
  | .Constructor | .ContinueStmt | .DebuggerStmt | .Decorator | .DoWhileStmt
  | .EmptyStmt | .ExportAll | .ExportDecl | .ExportDefaultDecl
  | .ExportDefaultExpr | .ExportDefaultSpecifier | .ExportNamedSpecifier
  | .ExportNamespaceSpecifier | .ExprOrSpread | .ExprStmt | .FnDecl | .FnExpr
  | .ForInStmt | .ForOfStmt | .ForStmt | .Function | .GetterProp | .IfStmt
  | .ImportDecl | .ImportDefaultSpecifier | .ImportNamedSpecifier
  | .ImportStarAsSpecifier | .Invalid | .UnaryExpr | .UpdateExpr | .VarDecl
  | .VarDeclarator | .WhileStmt | .WithStmt | .YieldExpr | .JSXAttr
  | .JSXClosingElement | .JSXClosingFragment | .JSXElement | .JSXEmptyExpr
  | .JSXExprContainer | .JSXFragment | .JSXMemberExpr | .JSXNamespacedName
  | .JSXOpeningElement | .JSXOpeningFragment | .JSXSpreadChild | .JSXText
  | .KeyValuePatProp | .KeyValueProp | .LabeledStmt | .MetaPropExpr
  | .MethodProp | .Module | .NamedExport | .NewExpr | .ObjectLit | .ObjectPat
  | .OptChainExpr | .Param | .ParenExpr | .PrivateMethod | .PrivateName
  | .PrivateProp | .Regex | .RestPat | .ReturnStmt | .Script | .SeqExpr
  | .SetterProp | .SpreadElement | .StaticBlock | .Super | .SwitchCase
  | .SwitchStmt | .TaggedTpl | .ThisExpr | .ThrowStmt | .Tpl | .TplElement
  | .TryStmt | .TsEnumDecl | .TsEnumMember | .TsExportAssignment
  | .TsExternalModuleRef | .TsImportEqualsDecl | .TsModuleBlock
  | .TsModuleDecl | .TsNamespaceDecl | .TsNamespaceExportDecl => some false
  | .TsArrayType | .TsCallSignatureDecl | .TsConditionalType
  | .TsConstAssertion | .TsConstructSignatureDecl | .TsConstructorType
  | .TsExprWithTypeArgs | .TsFnType | .TsGetterSignature | .TsImportType
  | .TsIndexSignature | .TsIndexedAccessType | .TsInferType | .TsInterfaceBody
  | .TsInterfaceDecl | .TsIntersectionType | .TsKeywordType | .TsLitType
  | .TsMappedType | .TsMethodSignature | .TsNonNullExpr | .TsOptionalType
  | .TsParamProp | .TsParenthesizedType | .TsPropertySignature
  | .TsQualifiedName | .TsRestType | .TsSetterSignature | .TsThisType
  | .TsTplLitType | .TsTupleElement | .TsTupleType | .TsTypeAliasDecl
  | .TsTypeAnn | .TsTypeLit | .TsTypeOperator | .TsTypeParam
  | .TsTypeParamDecl | .TsTypeParamInstantiation | .TsTypePredicate
  | .TsTypeQuery | .TsTypeRef | .TsUnionType => some true
  | .TsTypeAssertion => some (parent.typeAnnSpan.contains nodeSpan)
  | .TsAsExpr => some (parent.typeAnnSpan.contains nodeSpan)
  | .BigInt | .Bool | .Null | .Number | .MemberExpr | .Str | .Ident => none

/-- Direct embedding of `is_in_type` (`helpers.rs` lines 29-211): walk the
ancestor chain outward; each ancestor is classified against the span of the
current walker node; a definite classification stops the walk, otherwise the
walk continues from that ancestor; an exhausted chain yields `false`. -/
def is_in_type : Node → Bool
  | .mk _ _ _ _ _ _ none => false
  | .mk _ s _ _ _ _ (some p) =>
    match classifyForType p s with
    | some b => b
    | none => is_in_type p

/-- Canonical module identifier.  The source uses `url::Url`; the embedding
keeps the two pieces the orchestrator reads: the scheme (compared against
"file" in `get_declaration_warnings`) and the rest of the URL. -/
structure ModuleSpecifier where
  scheme : String
  path : String
deriving DecidableEq, Repr

/-- Display form of a specifier, standing in for `url::Url`'s `Display`
implementation used by the warning format strings. -/
def ModuleSpecifier.display (s : ModuleSpecifier) : String :=
  s.scheme ++ "://" ++ s.path

structure OutputFile where
  file_path : String
  file_text : String
deriving DecidableEq, Repr

structure Dependency where
  name : String
  version : String
deriving DecidableEq, Repr

structure TransformOutputEnvironment where
  entry_points : List String
  files : List OutputFile
  dependencies : List Dependency
deriving DecidableEq, Repr

structure TransformOutput where
  main : TransformOutputEnvironment
  test : TransformOutputEnvironment
  warnings : List String
deriving DecidableEq, Repr

structure MappedSpecifier where
  name : String
  version : Option String
deriving DecidableEq, Repr

structure Shim where
  package : MappedSpecifier
  global_names : List String
deriving DecidableEq, Repr

/-- One declaration-file reference: the declaration specifier and the module
that referred to it (`declaration_file_resolution::TypesDependency`). -/
structure TypesDependency where
  specifier : ModuleSpecifier
  referrer : ModuleSpecifier
deriving DecidableEq, Repr

/-- The resolution record for one code specifier: the selected declaration
reference and the non-selected (ignored) ones. -/
structure DeclarationResolution where
  selected : TypesDependency
  ignored : List TypesDependency
deriving DecidableEq, Repr

/-- Per-environment part of the specifier partition: the explicitly mapped
specifiers.  The source holds a `BTreeMap`; the embedding keeps its
key-ordered entry list. -/
structure EnvironmentSpecifiers where
  mapped : List (ModuleSpecifier × MappedSpecifier)
deriving DecidableEq, Repr

/-- The specifier partition produced by the external graph analysis
(`specifiers::Specifiers`): local and remote specifiers, the
declaration-file resolutions keyed by code specifier, the set of
test-only-reachable specifiers, and the per-environment mapped specifiers. -/
structure Specifiers where
  locals : List ModuleSpecifier
  remote : List ModuleSpecifier
  types : List (ModuleSpecifier × DeclarationResolution)
  test_modules : List ModuleSpecifier
  main : EnvironmentSpecifiers
  test : EnvironmentSpecifiers
deriving DecidableEq, Repr

/-- Polyfills are opaque to the orchestrator; it only collects them into a
set and tests emptiness. -/
abbrev Polyfill := String

/-- A reachable module as the orchestrator sees it: a parsed-source module
(whose rewriting is delegated to the external passes) or a synthetic module
with optional raw text. -/
inductive ModuleRef where
  | es
  | synthetic (maybe_source : Option String)
deriving DecidableEq, Repr

/-- Combined outcome of running the per-module rewrite passes and
`apply_text_changes` on one parsed-source module: the directive warnings,
the polyfills the module requires, whether a shim global was rewritten, and
the final file text.  These passes are external collaborators (spec section
4.4); the orchestrator consumes exactly this data. -/
structure EsTransformResult where
  warnings : List String
  polyfills : List Polyfill
  imported_shim : Bool
  file_text : String
deriving DecidableEq, Repr

/-- Everything the external collaborators hand the orchestrator after a
successful graph build: the specifier partition, the module lookup, the
output-path mapping, and the per-module rewrite outcome (an error aborts the
transform wrapped with the module's specifier). -/
structure ModuleGraphData where
  specifiers : Specifiers
  modules : ModuleSpecifier → ModuleRef
  file_path : ModuleSpecifier → String
  es_transform : ModuleSpecifier → Except String EsTransformResult

/-- Modelled from the spec: the reserved synthetic specifiers of
`mappings.rs` (outside the provided source); each environment reserves one
polyfill and one shim specifier, deterministic in the environment identity
and absent from the real module graph. -/
def SYNTHETIC_SPECIFIERS_polyfills : ModuleSpecifier := ⟨"dnt", "polyfills"⟩

def SYNTHETIC_SPECIFIERS_shims : ModuleSpecifier := ⟨"dnt", "shims"⟩

def SYNTHETIC_TEST_SPECIFIERS_polyfills : ModuleSpecifier := ⟨"dnt", "test-polyfills"⟩

def SYNTHETIC_TEST_SPECIFIERS_shims : ModuleSpecifier := ⟨"dnt", "test-shims"⟩

/-- Transform options.  The loader, specifier mappings and redirects are
consumed only by the external graph build, which the embedding represents by
`ModuleGraphData`, so they do not reappear here. -/
structure TransformOptions where
  entry_points : List ModuleSpecifier
  test_entry_points : List ModuleSpecifier
  shims : List Shim
  test_shims : List Shim

/-- Per-environment build state threaded through the transform
(`EnvironmentContext`).  The shim-file specifier of the source struct is
consumed only by the external shim rewriting pass and is therefore part of
`ModuleGraphData.es_transform` here. -/
structure EnvironmentContext where
  environment : TransformOutputEnvironment
  polyfills : List Polyfill
  shim_global_names : List String
  shims : List Shim
  used_shim : Bool
deriving DecidableEq, Repr

/-- Fatal transform outcomes: the entry-point validation failure, a
propagated graph-build/loader failure, or a per-module pass failure wrapped
with the offending specifier (the source attaches the context message
"Issue getting text changes from ..."). -/
inductive TransformError where
  | noEntryPoints
  | graphError (msg : String)
  | moduleError (specifier : ModuleSpecifier) (msg : String)
deriving DecidableEq, Repr

/-- Lexicographic comparison of char lists; stands in for the byte-wise
`str::cmp` that `sort_by(|a, b| a.name.cmp(&b.name))` uses. -/
def charListLe : List Char → List Char → Bool
  | [], _ => true
  | _ :: _, [] => false
  | a :: as_, b :: bs => if a = b then charListLe as_ bs else decide (a < b)

/-- Stable insertion of one element into a list: the element passes every
strictly smaller head and lands before the first head not strictly smaller
than it. -/
def insertSortedBy (le : α → α → Bool) (x : α) : List α → List α
  | [] => [x]
  | y :: ys =>
    if le y x && !(le x y) then y :: insertSortedBy le x ys else x :: y :: ys

/-- Stable sort by a comparator; models Rust's stable `Vec::sort_by`. -/
def insertionSortBy (le : α → α → Bool) : List α → List α
  | [] => []
  | x :: xs => insertSortedBy le x (insertionSortBy le xs)

def depNameLe (a b : Dependency) : Bool :=
  charListLe a.name.toList b.name.toList

/-- Direct embedding of `get_dependencies` (`lib.rs` lines 399-417): keep the
mapped specifiers that carry a version, then sort the resulting dependency
entries by name. -/
def get_dependencies (mappings : List (ModuleSpecifier × MappedSpecifier)) : List Dependency :=
  insertionSortBy depNameLe
    (mappings.filterMap fun entry =>
      match entry.2.version with
      | some version => some ⟨entry.2.name, version⟩
      | none => none)

/-- Warning format of `get_dep_warning` (`lib.rs` lines 446-453). -/
def get_dep_warning (code_specifier : ModuleSpecifier) (dep selected_dep : TypesDependency)
    (post_message : String) : String :=
  "Duplicate declaration file found for " ++ code_specifier.display
    ++ "\n  Specified " ++ dep.specifier.display ++ " in " ++ dep.referrer.display
    ++ "\n  Selected " ++ selected_dep.specifier.display
    ++ "\n  " ++ post_message

/-- The message appended when the selected declaration reference's referrer
is a local file. -/
def warningSelectedLocalMsg : String :=
  "Supress this warning by having only one local file specify the declaration file for this module."

/-- The message appended when the selected declaration reference's referrer
is remote. -/
def warningSelectedRemoteMsg : String :=
  "Supress this warning by specifying a declaration file for this module locally via `@deno-types`."

/-- Direct embedding of `get_declaration_warnings` (`lib.rs` lines 419-454):
when the selected reference's referrer has the "file" scheme, only the
ignored references whose referrer also has the "file" scheme produce a
message; otherwise every ignored reference produces one. -/
def declarationWarningsForEntry (p : ModuleSpecifier × DeclarationResolution) : List String :=
  if p.2.selected.referrer.scheme = "file" then
    (p.2.ignored.filter fun dep => dep.referrer.scheme = "file").map
      (fun dep => get_dep_warning p.1 dep p.2.selected warningSelectedLocalMsg)
  else
    p.2.ignored.map
      (fun dep => get_dep_warning p.1 dep p.2.selected warningSelectedRemoteMsg)

def get_declaration_warnings (specifiers : Specifiers) : List String :=
  specifiers.types.foldl
    (fun messages p => messages ++ declarationWarningsForEntry p) []

/-- Instantiation of `str::replace` at pattern "backtick", replacement
"backslash backtick": the first of the two replace passes the source applies
to synthetic module content. -/
def replaceBacktick : List Char → List Char
  | [] => []
  | c :: rest =>
    if c = '`' then '\\' :: '`' :: replaceBacktick rest
    else c :: replaceBacktick rest

/-- Instantiation of `str::replace` at the two-character pattern "dollar
open-brace", replacement "backslash dollar open-brace": the second replace
pass. -/
def replaceDollarBrace : List Char → List Char
  | [] => []
  | '$' :: '{' :: rest => '\\' :: '$' :: '{' :: replaceDollarBrace rest
  | c :: rest => c :: replaceDollarBrace rest

/-- Single left-to-right escaping pass over the original content, written
from the spec's escaping rule (backtick and the interpolation-start sequence
are escaped in one pass that never re-scans inserted output); the
refinement theorem compares the source's two sequential replaces against
this. -/
def escapeTemplateLiteralSpec : List Char → List Char
  | '`' :: rest => '\\' :: '`' :: escapeTemplateLiteralSpec rest
  | '$' :: '{' :: rest => '\\' :: '$' :: '{' :: escapeTemplateLiteralSpec rest
  | c :: rest => c :: escapeTemplateLiteralSpec rest
  | [] => []

/-- Modelled from the spec: `strip_bom` of `utils.rs` (outside the provided
source) removes a leading byte-order mark from the text. -/
def strip_bom (text : String) : String :=
  match text.toList with
  | '﻿' :: rest => String.mk rest
  | _ => text

/-- The `export default` emission for a synthetic module with content
(`lib.rs` lines 275-284): the content is escaped by the two sequential
replaces and embedded in a template literal. -/
def syntheticModuleText (source : String) : String :=
  "export default JSON.parse(`"
    ++ strip_bom (String.mk (replaceDollarBrace (replaceBacktick source.toList)))
    ++ "`);"

/-- Modelled from the spec: `get_relative_specifier` of `utils.rs` (outside
the provided source) computes the relative import path from one output file
to another; the orchestrator treats it as opaque text. -/
def get_relative_specifier (_fromPath toPath : String) : String :=
  "./" ++ toPath

/-- Modelled from the spec: `build_polyfill_file` of `polyfills.rs` (outside
the provided source) returns the polyfill file text when the accumulated
polyfill set is non-empty and nothing otherwise. -/
def build_polyfill_file (polyfills : List Polyfill) : Option String :=
  if polyfills.isEmpty then none
  else some (String.intercalate "\n" polyfills)

/-- The import line prepended to an entry-point file when a polyfill file is
synthesized (`lib.rs` lines 344-349). -/
def prependPolyfillImport (polyfill_file_path : String) (f : OutputFile) : OutputFile :=
  { f with file_text :=
      "import '" ++ get_relative_specifier f.file_path polyfill_file_path ++ "';\n"
        ++ f.file_text }

/-- In-place update through `iter_mut().find(...)`: the first file with the
given path is rewritten; later files with the same path are untouched. -/
def updateFirstFile (path : String) (g : OutputFile → OutputFile) : List OutputFile → List OutputFile
  | [] => []
  | f :: rest =>
    if f.file_path = path then g f :: rest
    else f :: updateFirstFile path g rest

/-- Direct embedding of `check_add_polyfill_file_to_environment` (`lib.rs`
lines 326-352): when the polyfill set yields a file, push it and then, for
each entry point, prepend the polyfill import to the first file at that
path. -/
def check_add_polyfill_file_to_environment (env_context : EnvironmentContext)
    (polyfill_file_path : String) : EnvironmentContext :=
  match build_polyfill_file env_context.polyfills with
  | some polyfill_file_text =>
    let files0 := env_context.environment.files ++ [⟨polyfill_file_path, polyfill_file_text⟩]
    let files1 := env_context.environment.entry_points.foldl
      (fun files entry_point =>
        updateFirstFile entry_point (prependPolyfillImport polyfill_file_path) files)
      files0
    { env_context with environment := { env_context.environment with files := files1 } }
  | none => env_context

/-- The shim re-export file text of `build_shim_file` (`lib.rs` lines
382-396). -/
def build_shim_file (shims : List Shim) : String :=
  let text := shims.foldl
    (fun text shim =>
      text ++ "export \x7b " ++ String.intercalate ", " shim.global_names
        ++ " \x7d from \"" ++ shim.package.name ++ "\";\n")
    ""
  if text = "" then "export \x7b\x7d;\n" else text

/-- Loop body of the shim dependency append (`lib.rs` lines 365-379): a shim
package is appended only when no dependency already carries its name and it
has a version. -/
def addShimDep (deps : List Dependency) (shim : Shim) : List Dependency :=
  if deps.any (fun d => d.name == shim.package.name) then deps
  else
    match shim.package.version with
    | some version => deps ++ [⟨shim.package.name, version⟩]
    | none => deps

/-- Direct embedding of `check_add_shim_file_to_environment` (`lib.rs` lines
354-397): when a shim global was referenced, push the shim file and append a
dependency for every configured shim package that carries a version and
whose name is not already present. -/
def check_add_shim_file_to_environment (env_context : EnvironmentContext)
    (shim_file_path : String) : EnvironmentContext :=
  if env_context.used_shim then
    let files := env_context.environment.files
      ++ [⟨shim_file_path, build_shim_file env_context.shims⟩]
    let deps := env_context.shims.foldl addShimDep env_context.environment.dependencies
    { env_context with environment :=
        { env_context.environment with files := files, dependencies := deps } }
  else env_context

/-- Initial build contexts of the two environments (`lib.rs` lines 155-196):
entry points mapped to output paths, dependencies seeded from each
environment's mapped specifiers, shim global names flattened from the
configured shims. -/
def init_contexts (options : TransformOptions) (g : ModuleGraphData) :
    EnvironmentContext × EnvironmentContext :=
  (⟨{ entry_points := options.entry_points.map g.file_path
    , files := []
    , dependencies := get_dependencies g.specifiers.main.mapped }
    , [], (options.shims.map Shim.global_names).flatten, options.shims, false⟩,
   ⟨{ entry_points := options.test_entry_points.map g.file_path
    , files := []
    , dependencies := get_dependencies g.specifiers.test.mapped }
    , [], (options.test_shims.map Shim.global_names).flatten, options.test_shims, false⟩)

/-- The stable iteration order of the per-module loop (`lib.rs` lines
198-203): locals, then remotes, then the selected declaration-file
specifiers. -/
def module_order (s : Specifiers) : List ModuleSpecifier :=
  s.locals ++ s.remote ++ s.types.map (fun p => p.2.selected.specifier)

/-- Routed read of the build context a specifier belongs to: the test
context for exclusively test-reachable specifiers, the main context
otherwise. -/
def routedContext (s : Specifiers) (specifier : ModuleSpecifier)
    (st : EnvironmentContext × EnvironmentContext × List String) : EnvironmentContext :=
  if s.test_modules.contains specifier then st.2.1 else st.1

/-- Routed write-back of the build context a specifier belongs to. -/
def putRoutedContext (s : Specifiers) (specifier : ModuleSpecifier)
    (st : EnvironmentContext × EnvironmentContext × List String)
    (ctx : EnvironmentContext) (warnings : List String) :
    EnvironmentContext × EnvironmentContext × List String :=
  if s.test_modules.contains specifier then (st.1, ctx, warnings) else (ctx, st.2.1, warnings)

/-- Effect of one parsed-source module on the transform state: extend the
warning list with the directive warnings, the polyfill set and the shim-used
flag with the pass results, and record the final file at its mapped path. -/
def applyEsResult (g : ModuleGraphData) (st : EnvironmentContext × EnvironmentContext × List String)
    (specifier : ModuleSpecifier) (r : EsTransformResult) :
    EnvironmentContext × EnvironmentContext × List String :=
  let ctx := routedContext g.specifiers specifier st
  let ctx := { ctx with
    polyfills := ctx.polyfills ++ r.polyfills
    used_shim := ctx.used_shim || r.imported_shim
    environment := { ctx.environment with
      files := ctx.environment.files ++ [⟨g.file_path specifier, r.file_text⟩] } }
  putRoutedContext g.specifiers specifier st ctx (st.2.2 ++ r.warnings)

/-- Effect of one synthetic module with content: record the escaped
`export default` file at its mapped path. -/
def applySyntheticResult (g : ModuleGraphData)
    (st : EnvironmentContext × EnvironmentContext × List String)
    (specifier : ModuleSpecifier) (source : String) :
    EnvironmentContext × EnvironmentContext × List String :=
  let ctx := routedContext g.specifiers specifier st
  let ctx := { ctx with environment := { ctx.environment with
      files := ctx.environment.files ++ [⟨g.file_path specifier, syntheticModuleText source⟩] } }
  putRoutedContext g.specifiers specifier st ctx st.2.2

/-- Body of the per-module loop (`lib.rs` lines 198-292) for one specifier:
a parsed-source module runs the passes (a pass failure aborts the transform
wrapped with the specifier), a synthetic module with content emits its
escaped text, a synthetic module without content is skipped. -/
def transformStep (g : ModuleGraphData)
    (st : EnvironmentContext × EnvironmentContext × List String)
    (specifier : ModuleSpecifier) :
    Except TransformError (EnvironmentContext × EnvironmentContext × List String) :=
  match g.modules specifier with
  | .es =>
    match g.es_transform specifier with
    | .error err => .error (.moduleError specifier err)
    | .ok r => .ok (applyEsResult g st specifier r)
  | .synthetic (some source) => .ok (applySyntheticResult g st specifier source)
  | .synthetic none => .ok st

/-- The transform pipeline up to and including per-environment finalization
(`lib.rs` lines 129-309): validation, graph build, context initialization,
the per-module loop, then the polyfill and shim finalization of both
environments.  Only the cross-environment dependency filter and output
assembly remain. -/
def transformAfterFinalize (options : TransformOptions)
    (graph : Except String ModuleGraphData) :
    Except TransformError (EnvironmentContext × EnvironmentContext × List String) :=
  if options.entry_points.isEmpty then .error .noEntryPoints
  else
    match graph with
    | .error e => .error (.graphError e)
    | .ok g =>
      let ctxs := init_contexts options g
      let warnings := get_declaration_warnings g.specifiers
      match List.foldlM (transformStep g) (ctxs.1, ctxs.2, warnings) (module_order g.specifiers) with
      | .error e => .error e
      | .ok (m, t, w) =>
        let m := check_add_polyfill_file_to_environment m
          (g.file_path SYNTHETIC_SPECIFIERS_polyfills)
        let t := check_add_polyfill_file_to_environment t
          (g.file_path SYNTHETIC_TEST_SPECIFIERS_polyfills)
        let m := check_add_shim_file_to_environment m
          (g.file_path SYNTHETIC_SPECIFIERS_shims)
        let t := check_add_shim_file_to_environment t
          (g.file_path SYNTHETIC_TEST_SPECIFIERS_shims)
        .ok (m, t, w)

/-- Full embedding of `transform` (`lib.rs` lines 129-324): after both
environments are finalized, every test dependency whose exact (name,
version) pair also appears in the main environment's final list is dropped,
and the output is assembled. -/
def transform (options : TransformOptions) (graph : Except String ModuleGraphData) :
    Except TransformError TransformOutput :=
  match transformAfterFinalize options graph with
  | .error e => .error e
  | .ok (m, t, w) =>
    let testDeps := t.environment.dependencies.filter
      (fun d => !(m.environment.dependencies.contains d))
    .ok { main := m.environment,
          test := { t.environment with dependencies := testDeps },
          warnings := w }

/-- Extracts the main environment's dependency list of a successful
transform (empty on failure); used to state concrete facts about whole
transform runs. -/
def mainDepsOf : Except TransformError TransformOutput → List Dependency
  | .ok out => out.main.dependencies
  | .error _ => []

/-- Decidable strict name-sortedness of a dependency list, the ordering
claim C4 asserts for the final lists. -/
def depsStrictlySortedByName : List Dependency → Bool
  | a :: b :: rest =>
    (charListLe a.name.toList b.name.toList && !(charListLe b.name.toList a.name.toList))
      && depsStrictlySortedByName (b :: rest)
  | _ => true

/-- The predicate claim C2 asserts, written from the claim's words: an
if-statement parent counts only when the node is its test (decided here by
containment in the if-statement's test span); everything else is as in the
code. -/
def claim_directly_in_condition (node : Node) : Bool :=
  match node.parent with
  | some p =>
    match p.kind with
    | .BinExpr => true
    | .IfStmt => p.testSpan.contains node.span
    | .UnaryExpr => p.op = UnaryOp.typeOf
    | .CondExpr => p.testSpan.contains node.span
    | _ => false
  | none => false

/-- Placeholder span for node fields irrelevant to an example. -/
def dummySpan : Span := ⟨0, 0⟩

/-- Example AST for `x as Foo` (spans: whole 0-8, `x` 0-1, `Foo` 5-8): the
as-expression with its type-annotation sub-span. -/
def exAsExpr : Node := .mk .TsAsExpr ⟨0, 8⟩ .minus dummySpan dummySpan ⟨5, 8⟩ none

def exAsX : Node := .mk .Ident ⟨0, 1⟩ .minus dummySpan dummySpan dummySpan (some exAsExpr)

def exAsFooRef : Node := .mk .TsTypeRef ⟨5, 8⟩ .minus dummySpan dummySpan dummySpan (some exAsExpr)

def exAsFoo : Node := .mk .Ident ⟨5, 8⟩ .minus dummySpan dummySpan dummySpan (some exAsFooRef)

/-- Example AST for `if (x) y;` (spans: whole 0-9, test `x` 4-5, consequent
`y;` 7-9). -/
def exIfStmt : Node := .mk .IfStmt ⟨0, 9⟩ .minus ⟨4, 5⟩ dummySpan dummySpan none

def exIfTest : Node := .mk .Ident ⟨4, 5⟩ .minus dummySpan dummySpan dummySpan (some exIfStmt)

def exIfCons : Node := .mk .ExprStmt ⟨7, 9⟩ .minus dummySpan dummySpan dummySpan (some exIfStmt)

/-- Example AST for `a = b` (spans: whole 0-5, `a` 0-1, `b` 4-5; the
assignment's left-hand-side sub-span is 0-1). -/
def exAssign : Node := .mk .AssignExpr ⟨0, 5⟩ .minus dummySpan ⟨0, 1⟩ dummySpan none

def exAssignA : Node := .mk .Ident ⟨0, 1⟩ .minus dummySpan dummySpan dummySpan (some exAssign)

def exAssignB : Node := .mk .Ident ⟨4, 5⟩ .minus dummySpan dummySpan dummySpan (some exAssign)

/-- Nested assignments: the inner assignment's left-hand side (2-3) does not
contain the node (5-6) while the outer one's (0-8) does; only the nearest
assignment may decide. -/
def exOuterAssign : Node := .mk .AssignExpr ⟨0, 8⟩ .minus dummySpan ⟨0, 8⟩ dummySpan none

def exInnerAssign : Node :=
  .mk .AssignExpr ⟨2, 7⟩ .minus dummySpan ⟨2, 3⟩ dummySpan (some exOuterAssign)

def exNestedNode : Node := .mk .Ident ⟨5, 6⟩ .minus dummySpan dummySpan dummySpan (some exInnerAssign)

/-- Concrete transform run for claim C4: one mapped dependency named "zpkg"
and one shim package named "apkg" whose global is referenced, so the shim
dependency is appended after "zpkg". -/
def c4mainEntry : ModuleSpecifier := ⟨"file", "main.ts"⟩

def c4localMod : ModuleSpecifier := ⟨"file", "mod.ts"⟩

def c4mappedSpec : ModuleSpecifier := ⟨"https", "x/zpkg.ts"⟩

def c4options : TransformOptions :=
  ⟨[c4mainEntry], [], [⟨⟨"apkg", some "1.0.0"⟩, ["A"]⟩], []⟩

def c4graph : ModuleGraphData :=
  { specifiers :=
      { locals := [c4localMod], remote := [], types := [], test_modules := []
      , main := ⟨[(c4mappedSpec, ⟨"zpkg", some "1.0.0"⟩)]⟩, test := ⟨[]⟩ }
  , modules := fun _ => .es
  , file_path := fun sp => sp.path
  , es_transform := fun _ => .ok ⟨[], [], true, "text"⟩ }

/-- Concrete transform run for claim C5: main maps a dependency ("a", "1");
test maps the same pair plus ("b", "2"). -/
def c5entry : ModuleSpecifier := ⟨"file", "main.ts"⟩

def c5mapMainKey : ModuleSpecifier := ⟨"https", "a.ts"⟩

def c5mapTestKey1 : ModuleSpecifier := ⟨"https", "a2.ts"⟩

def c5mapTestKey2 : ModuleSpecifier := ⟨"https", "b.ts"⟩

def c5options : TransformOptions := ⟨[c5entry], [], [], []⟩

def c5graph : ModuleGraphData :=
  { specifiers :=
      { locals := [], remote := [], types := [], test_modules := []
      , main := ⟨[(c5mapMainKey, ⟨"a", some "1"⟩)]⟩
      , test := ⟨[(c5mapTestKey1, ⟨"a", some "1"⟩), (c5mapTestKey2, ⟨"b", some "2"⟩)]⟩ }
  , modules := fun _ => .synthetic none
  , file_path := fun sp => sp.path
  , es_transform := fun _ => .error "unused" }

def c5mainCtx : EnvironmentContext :=
  ⟨⟨["main.ts"], [], [⟨"a", "1"⟩]⟩, [], [], [], false⟩

def c5testCtx : EnvironmentContext :=
  ⟨⟨[], [], [⟨"a", "1"⟩, ⟨"b", "2"⟩]⟩, [], [], [], false⟩

/-- Concrete declaration conflict for claim C6: the selected reference's
referrer is local (file scheme) while the single non-selected reference's
referrer is remote. -/
def c6code : ModuleSpecifier := ⟨"https", "code.ts"⟩

def c6localRef : TypesDependency := ⟨⟨"file", "types.d.ts"⟩, ⟨"file", "mod.ts"⟩⟩

def c6remoteRef : TypesDependency := ⟨⟨"https", "types.d.ts"⟩, ⟨"https", "mod.ts"⟩⟩

def c6specifiers : Specifiers :=
  { locals := [], remote := [], types := [(c6code, ⟨c6localRef, [c6remoteRef]⟩)]
  , test_modules := [], main := ⟨[]⟩, test := ⟨[]⟩ }

/-- Options with no entry point at all, for claim C8. -/
def c8options : TransformOptions := ⟨[], [], [], []⟩

/-- Concrete environment context for claim C9's witness: one entry-point
file, one other file, a non-empty polyfill set. -/
def c9ctx : EnvironmentContext :=
  ⟨⟨["main.ts"], [⟨"main.ts", "mainText"⟩, ⟨"other.ts", "otherText"⟩], []⟩,
    ["polyA"], [], [], false⟩

/-- Replacing the two-character interpolation-start pattern leaves any other
head character in place. -/
theorem rdb_cons (c : Char) (t : List Char) (h : c ≠ '$') :
    replaceDollarBrace (c :: t) = c :: replaceDollarBrace t := by
  conv_lhs => rw [replaceDollarBrace.eq_def]
  split
  · rename_i heq
    exact absurd heq (by simp)
  · rename_i rest heq
    injection heq with h1 _
    exact absurd h1 h
  · rename_i c' rest' hX heq
    injection heq with h1 h2
    rw [h1, h2]

/-- A dollar head not followed by an open brace is also left in place. -/
theorem rdb_dollar_cons (t : List Char) (h : t.head? ≠ some '{') :
    replaceDollarBrace ('$' :: t) = '$' :: replaceDollarBrace t := by
  conv_lhs => rw [replaceDollarBrace.eq_def]
  split
  · rename_i heq
    exact absurd heq (by simp)
  · rename_i rest heq
    injection heq with _ h2
    exact absurd (by rw [h2] ; rfl) h
  · rename_i c' rest' hX heq
    injection heq with h1 h2
    rw [h1, h2]

theorem rb_cons_ne (c : Char) (t : List Char) (h : c ≠ '`') :
    replaceBacktick (c :: t) = c :: replaceBacktick t := by
  simp [replaceBacktick, h]

/-- The backtick replacement never brings an open brace to the front. -/
theorem rb_head_ne_brace (t : List Char) (h : t.head? ≠ some '{') :
    (replaceBacktick t).head? ≠ some '{' := by
  cases t with
  | nil => simp [replaceBacktick]
  | cons c u =>
    simp only [replaceBacktick]
    split
    · simp
    · simpa using h

/-- Cons equation of the single-pass escape at a head that starts no escape
sequence. -/
theorem escapeTemplateLiteralSpec_cons (c : Char) (t : List Char) (h1 : c ≠ '`')
    (h2 : ¬(c = '$' ∧ t.head? = some '{')) :
    escapeTemplateLiteralSpec (c :: t) = c :: escapeTemplateLiteralSpec t := by
  cases t with
  | nil =>
    conv_lhs => rw [escapeTemplateLiteralSpec.eq_def]
    split
    · rename_i heq
      simp at heq
      exact absurd heq.1 h1
    · rename_i heq
      exact absurd heq (by simp)
    · rename_i c' rest' hX heq
      simp at heq
      rw [heq.1, heq.2]
    · rename_i heq
      exact absurd heq (by simp)
  | cons d u =>
    conv_lhs => rw [escapeTemplateLiteralSpec.eq_def]
    split
    · rename_i heq
      simp at heq
      exact absurd heq.1 h1
    · rename_i rest heq
      simp at heq
      exact absurd ⟨heq.1, by simp [heq.2.1]⟩ h2
    · rename_i c' rest' hX heq
      simp at heq
      rw [heq.1, heq.2]
    · rename_i heq
      exact absurd heq (by simp)

/-- Core of the escaping refinement: the source's two sequential replaces
(backtick first, then the interpolation start) compute exactly the
single-pass escape over the original content. -/
theorem two_pass_escape_eq_single_pass (s : List Char) :
    replaceDollarBrace (replaceBacktick s) = escapeTemplateLiteralSpec s := by
  induction s using escapeTemplateLiteralSpec.induct with
  | case1 rest ih =>
    have hb : replaceBacktick ('`' :: rest) = '\\' :: '`' :: replaceBacktick rest := by
      simp [replaceBacktick]
    rw [hb, rdb_cons _ _ (by decide), rdb_cons _ _ (by decide), ih]
    rfl
  | case2 rest ih =>
    have hb : replaceBacktick ('$' :: '{' :: rest) = '$' :: '{' :: replaceBacktick rest := by
      rw [rb_cons_ne _ _ (by decide), rb_cons_ne _ _ (by decide)]
    rw [hb]
    show replaceDollarBrace ('$' :: '{' :: replaceBacktick rest) = _
    rw [replaceDollarBrace, ih]
    rfl
  | case3 c rest h1 h2 ih =>
    have hc1 : c ≠ '`' := fun h => h1 h
    have hrest : c = '$' → rest.head? ≠ some '{' := by
      intro hc hh
      cases rest with
      | nil => simp at hh
      | cons d u =>
        simp at hh
        exact h2 u hc (by rw [hh])
    rw [rb_cons_ne _ _ hc1]
    have hstep : replaceDollarBrace (c :: replaceBacktick rest)
        = c :: replaceDollarBrace (replaceBacktick rest) := by
      by_cases hc : c = '$'
      · subst hc
        exact rdb_dollar_cons _ (rb_head_ne_brace _ (hrest rfl))
      · exact rdb_cons _ _ hc
    rw [hstep, ih, escapeTemplateLiteralSpec_cons c rest hc1]
    rintro ⟨hc, hh⟩
    exact hrest hc hh
  | case4 => rfl

/-- The ancestor walk of `is_in_left_hand_assignment` is decided by the
first assignment-expression ancestor found. -/
theorem lhsAssignWalk_eq_find (nodeSpan : Span) (l : List Node) :
    lhsAssignWalk nodeSpan l =
      (match l.find? (fun a => a.kind == NodeKind.AssignExpr) with
       | some a => a.leftSpan.contains nodeSpan
       | none => false) := by
  induction l with
  | nil => rfl
  | cons a rest ih =>
    by_cases h : a.kind = NodeKind.AssignExpr
    · simp [lhsAssignWalk, List.find?, h]
    · have hb : (a.kind == NodeKind.AssignExpr) = false := by
        simpa using h
      simp [lhsAssignWalk, List.find?, h, hb, ih]

/-- Folding list appends from an initial accumulator is a flat map. -/
theorem foldl_append_eq_flatMap {α β : Type} (f : α → List β) :
    ∀ (l : List α) (init : List β),
      l.foldl (fun acc x => acc ++ f x) init = init ++ l.flatMap f
  | [], init => by simp
  | x :: xs, init => by
    rw [List.foldl_cons, foldl_append_eq_flatMap f xs (init ++ f x), List.flatMap_cons,
      List.append_assoc]

/-- Transitivity of the lexicographic char-list comparison. -/
theorem charListLe_trans :
    ∀ (a b c : List Char), charListLe a b = true → charListLe b c = true →
      charListLe a c = true
  | [], _, _, _, _ => by simp [charListLe]
  | _ :: _, [], _, hab, _ => by simp [charListLe] at hab
  | _ :: _, _ :: _, [], _, hbc => by simp [charListLe] at hbc
  | x :: xs, y :: ys, z :: zs, hab, hbc => by
    simp only [charListLe] at hab hbc ⊢
    by_cases hxy : x = y
    · subst hxy
      rw [if_pos rfl] at hab
      by_cases hyz : x = z
      · subst hyz
        rw [if_pos rfl] at hbc
        rw [if_pos rfl]
        exact charListLe_trans xs ys zs hab hbc
      · rw [if_neg hyz] at hbc
        rw [if_neg hyz]
        exact hbc
    · rw [if_neg hxy] at hab
      by_cases hyz : y = z
      · subst hyz
        rw [if_neg hxy]
        exact hab
      · rw [if_neg hyz] at hbc
        have hxz : x < z := lt_trans (of_decide_eq_true hab) (of_decide_eq_true hbc)
        rw [if_neg (ne_of_lt hxz)]
        exact decide_eq_true hxz

/-- Totality of the lexicographic char-list comparison. -/
theorem charListLe_total :
    ∀ (a b : List Char), charListLe a b = true ∨ charListLe b a = true
  | [], _ => Or.inl (by simp [charListLe])
  | _ :: _, [] => Or.inr (by simp [charListLe])
  | x :: xs, y :: ys => by
    simp only [charListLe]
    by_cases hxy : x = y
    · subst hxy
      rw [if_pos rfl, if_pos rfl]
      exact charListLe_total xs ys
    · rw [if_neg hxy, if_neg (Ne.symm hxy)]
      rcases lt_or_gt_of_ne hxy with h | h
      · exact Or.inl (decide_eq_true h)
      · exact Or.inr (decide_eq_true h)

/-- Membership in a stable insertion. -/
theorem mem_insertSortedBy {α : Type} (le : α → α → Bool) (x a : α) :
    ∀ (l : List α), a ∈ insertSortedBy le x l ↔ a = x ∨ a ∈ l
  | [] => by simp [insertSortedBy]
  | y :: ys => by
    simp only [insertSortedBy]
    split
    · rw [List.mem_cons, mem_insertSortedBy le x a ys, List.mem_cons]
      tauto
    · exact List.mem_cons

/-- Stable insertion preserves sortedness under a transitive, total
comparator. -/
theorem pairwise_insertSortedBy {α : Type} (le : α → α → Bool)
    (htrans : ∀ a b c, le a b = true → le b c = true → le a c = true)
    (htotal : ∀ a b, le a b = true ∨ le b a = true) (x : α) :
    ∀ (l : List α), l.Pairwise (fun a b => le a b = true) →
      (insertSortedBy le x l).Pairwise (fun a b => le a b = true)
  | [], _ => by simp [insertSortedBy]
  | y :: ys, h => by
    rw [List.pairwise_cons] at h
    simp only [insertSortedBy]
    split
    · rename_i hcond
      rw [Bool.and_eq_true, Bool.not_eq_true'] at hcond
      rw [List.pairwise_cons]
      refine ⟨?_, pairwise_insertSortedBy le htrans htotal x ys h.2⟩
      intro a ha
      rcases (mem_insertSortedBy le x a ys).mp ha with rfl | ha
      · exact hcond.1
      · exact h.1 a ha
    · rename_i hcond
      rw [Bool.and_eq_true, Bool.not_eq_true'] at hcond
      have hxy : le x y = true := by
        rcases htotal x y with h1 | h1
        · exact h1
        · rcases Bool.eq_false_or_eq_true (le x y) with h2 | h2
          · exact h2
          · exact absurd ⟨h1, h2⟩ hcond
      rw [List.pairwise_cons]
      refine ⟨?_, List.pairwise_cons.mpr h⟩
      intro a ha
      rcases List.mem_cons.mp ha with rfl | ha
      · exact hxy
      · exact htrans x y a hxy (h.1 a ha)

/-- The stable insertion sort produces a list sorted by its comparator. -/
theorem pairwise_insertionSortBy {α : Type} (le : α → α → Bool)
    (htrans : ∀ a b c, le a b = true → le b c = true → le a c = true)
    (htotal : ∀ a b, le a b = true ∨ le b a = true) :
    ∀ (l : List α), (insertionSortBy le l).Pairwise (fun a b => le a b = true)
  | [] => by simp [insertionSortBy]
  | x :: xs => by
    simp only [insertionSortBy]
    exact pairwise_insertSortedBy le htrans htotal x _
      (pairwise_insertionSortBy le htrans htotal xs)

/-- The shim dependency fold only ever appends, and every appended entry's
name is absent from the initial list. -/
theorem foldl_addShimDep_append :
    ∀ (shims : List Shim) (deps0 : List Dependency),
      ∃ extra, shims.foldl addShimDep deps0 = deps0 ++ extra ∧
        ∀ d ∈ extra, ∀ d0 ∈ deps0, d.name ≠ d0.name
  | [], deps0 => ⟨[], by simp, by simp⟩
  | sh :: rest, deps0 => by
    rw [List.foldl_cons]
    by_cases hany : deps0.any (fun d => d.name == sh.package.name) = true
    · rw [show addShimDep deps0 sh = deps0 from by simp [addShimDep, hany]]
      exact foldl_addShimDep_append rest deps0
    · cases hv : sh.package.version with
      | none =>
        rw [show addShimDep deps0 sh = deps0 from by simp [addShimDep, hany, hv]]
        exact foldl_addShimDep_append rest deps0
      | some v =>
        rw [show addShimDep deps0 sh = deps0 ++ [⟨sh.package.name, v⟩] from by
          simp [addShimDep, hany, hv]]
        obtain ⟨extra, heq, hfresh⟩ :=
          foldl_addShimDep_append rest (deps0 ++ [⟨sh.package.name, v⟩])
        refine ⟨⟨sh.package.name, v⟩ :: extra, by rw [heq] ; simp, ?_⟩
        intro d hd d0 hd0
        have hnames : ∀ x ∈ deps0, x.name ≠ sh.package.name := by
          intro x hx hc
          exact hany (List.any_eq_true.mpr ⟨x, hx, by simp [hc]⟩)
        rcases List.mem_cons.mp hd with rfl | hd
        · exact fun hc => hnames d0 hd0 (hc.symm)
        · exact hfresh d hd d0 (List.mem_append_left _ hd0)

/-- The only error a per-module step can produce is a module error wrapped
with a specifier. -/
theorem transformStep_error_moduleError (g : ModuleGraphData)
    (st : EnvironmentContext × EnvironmentContext × List String)
    (sp : ModuleSpecifier) (e : TransformError)
    (h : transformStep g st sp = .error e) : ∃ s2 m2, e = .moduleError s2 m2 := by
  unfold transformStep at h
  cases hm : g.modules sp with
  | es =>
    rw [hm] at h
    cases het : g.es_transform sp with
    | error err =>
      rw [het] at h
      exact ⟨sp, err, (Except.error.inj h).symm⟩
    | ok r =>
      rw [het] at h
      exact absurd h (by simp)
  | synthetic maybe_source =>
    rw [hm] at h
    cases maybe_source with
    | some source => exact absurd h (by simp)
    | none => exact absurd h (by simp)

/-- The per-module loop can only fail with a module error. -/
theorem foldlM_transformStep_error (g : ModuleGraphData) :
    ∀ (l : List ModuleSpecifier)
      (st : EnvironmentContext × EnvironmentContext × List String) (e : TransformError),
      List.foldlM (transformStep g) st l = .error e → ∃ s2 m2, e = .moduleError s2 m2
  | [], st, e => by
    intro h
    simp [List.foldlM_nil, pure, Except.pure] at h
  | x :: xs, st, e => by
    intro h
    rw [List.foldlM_cons] at h
    cases hs : transformStep g st x with
    | error e1 =>
      rw [hs] at h
      simp only [Bind.bind, Except.bind] at h
      exact (Except.error.inj h) ▸ transformStep_error_moduleError g st x e1 hs
    | ok s1 =>
      rw [hs] at h
      simp only [Bind.bind, Except.bind] at h
      exact foldlM_transformStep_error g xs s1 e h

/-- Updating the first file at a path is a pointwise map when file paths are
unique. -/
theorem updateFirstFile_eq_map (ep : String) (g : OutputFile → OutputFile) :
    ∀ (files : List OutputFile), (files.map OutputFile.file_path).Nodup →
      updateFirstFile ep g files
        = files.map (fun f => if f.file_path = ep then g f else f)
  | [], _ => rfl
  | f :: rest, h => by
    rw [List.map_cons, List.nodup_cons] at h
    by_cases hfp : f.file_path = ep
    · simp only [updateFirstFile, if_pos hfp, List.map_cons]
      have hrest : ∀ x ∈ rest, (if x.file_path = ep then g x else x) = x := by
        intro x hx
        rw [if_neg]
        intro hc
        exact h.1 (by rw [hfp, ← hc] ; exact List.mem_map_of_mem _ hx)
      rw [List.map_congr_left hrest]
      simp
    · simp only [updateFirstFile, if_neg hfp, List.map_cons]
      rw [updateFirstFile_eq_map ep g rest h.2]

/-- A path-preserving pointwise update keeps the path list unchanged. -/
theorem paths_map_if (g : OutputFile → OutputFile)
    (hg : ∀ f, (g f).file_path = f.file_path) (p : OutputFile → Bool)
    (files : List OutputFile) :
    (files.map (fun f => if p f then g f else f)).map OutputFile.file_path
      = files.map OutputFile.file_path := by
  rw [List.map_map]
  apply List.map_congr_left
  intro f _
  by_cases hp : p f
  · simp [Function.comp, hp, hg]
  · simp [Function.comp, hp]

/-- Folding first-file updates over distinct entry points applies the update
exactly to the files whose path is an entry point. -/
theorem foldl_updateFirstFile (g : OutputFile → OutputFile)
    (hg : ∀ f, (g f).file_path = f.file_path) :
    ∀ (eps : List String) (files : List OutputFile), eps.Nodup →
      (files.map OutputFile.file_path).Nodup →
      eps.foldl (fun files ep => updateFirstFile ep g files) files
        = files.map (fun f => if f.file_path ∈ eps then g f else f)
  | [], files, _, _ => by simp
  | ep :: eps, files, he, hf => by
    obtain ⟨hep, heps⟩ := List.nodup_cons.mp he
    rw [List.foldl_cons, updateFirstFile_eq_map ep g files hf]
    have hf2 : ((files.map (fun f => if f.file_path = ep then g f else f)).map
        OutputFile.file_path).Nodup := by
      rw [show (fun f : OutputFile => if f.file_path = ep then g f else f)
          = (fun f => if (fun x => decide (x.file_path = ep)) f = true then g f else f)
          from by funext f ; simp]
      rw [paths_map_if g hg _ files]
      exact hf
    rw [foldl_updateFirstFile g hg eps _ heps hf2, List.map_map]
    apply List.map_congr_left
    intro f _
    by_cases h1 : f.file_path = ep
    · have hgp : (g f).file_path = ep := by rw [hg, h1]
      simp only [Function.comp, if_pos h1]
      rw [if_neg (by rw [hgp] ; exact hep), if_pos (by rw [h1] ; exact List.mem_cons_self ep eps)]
    · simp only [Function.comp, if_neg h1]
      by_cases h2 : f.file_path ∈ eps
      · rw [if_pos h2, if_pos (List.mem_cons_of_mem ep h2)]
      · rw [if_neg h2, if_neg (by rw [List.mem_cons] ; rintro (hc | hc) ; exact h1 hc ; exact h2 hc)]

/-- C1: `is_in_type` walks the ancestor chain outward classifying each
ancestor into exactly four buckets — always-value kinds stop with `false`,
always-type kinds stop with `true`, the type-assertion and as-expression
kinds stop and decide by containment of the walker node's span in their
type-annotation sub-span, and the positionless kinds (the literals, the
identifier, the member expression) continue to the next ancestor; an
exhausted chain yields `false`; in `x as Foo`, `Foo` is in a type position
and `x` is not. -/
theorem c1_is_in_type_classification :
    (∀ (k : NodeKind) (s : Span) (o : UnaryOp) (t l ta : Span),
        is_in_type (.mk k s o t l ta none) = false) ∧
    (∀ (k : NodeKind) (s : Span) (o : UnaryOp) (t l ta : Span) (p : Node) (b : Bool),
        classifyForType p s = some b → is_in_type (.mk k s o t l ta (some p)) = b) ∧
    (∀ (k : NodeKind) (s : Span) (o : UnaryOp) (t l ta : Span) (p : Node),
        classifyForType p s = none → is_in_type (.mk k s o t l ta (some p)) = is_in_type p) ∧
    (∀ (p : Node) (s : Span),
        classifyForType p s = none ↔ p.kind ∈ [NodeKind.BigInt, NodeKind.Bool, NodeKind.Null,
          NodeKind.Number, NodeKind.MemberExpr, NodeKind.Str, NodeKind.Ident]) ∧
    (∀ (p : Node) (s : Span), p.kind = NodeKind.TsTypeAssertion ∨ p.kind = NodeKind.TsAsExpr →
        classifyForType p s = some (p.typeAnnSpan.contains s)) ∧
    (∀ (p : Node) (s s2 : Span), p.kind ≠ NodeKind.TsTypeAssertion →
        p.kind ≠ NodeKind.TsAsExpr → classifyForType p s = classifyForType p s2) ∧
    (is_in_type exAsFoo = true ∧ is_in_type exAsX = false) := by
  refine ⟨?_, ?_, ?_, ?_, ?_, ?_, rfl, rfl⟩
  · intro k s o t l ta
    rfl
  · intro k s o t l ta p b h
    simp only [is_in_type]
    rw [h]
  · intro k s o t l ta p h
    simp only [is_in_type]
    rw [h]
  · intro p s
    obtain ⟨k, sp, o, t, l, ta, pp⟩ := p
    cases k <;> simp [classifyForType, Node.kind]
  · intro p s h
    obtain ⟨k, sp, o, t, l, ta, pp⟩ := p
    simp only [Node.kind] at h
    rcases h with rfl | rfl <;> rfl
  · intro p s s2 h1 h2
    obtain ⟨k, sp, o, t, l, ta, pp⟩ := p
    cases k <;> first
      | rfl
      | exact absurd rfl h1
      | exact absurd rfl h2

/-- Witness for C1: the definite-classification arm applied at the two
concrete nodes of the `x as Foo` example. -/
theorem c1_witness :
    is_in_type (Node.mk NodeKind.Ident ⟨5, 8⟩ UnaryOp.minus dummySpan dummySpan dummySpan
      (some exAsFooRef)) = true ∧
    is_in_type (Node.mk NodeKind.Ident ⟨0, 1⟩ UnaryOp.minus dummySpan dummySpan dummySpan
      (some exAsExpr)) = false :=
  ⟨c1_is_in_type_classification.2.1 _ _ _ _ _ _ exAsFooRef true rfl,
   c1_is_in_type_classification.2.1 _ _ _ _ _ _ exAsExpr false rfl⟩

/-- C2 counterexample: the consequent statement of `if (x) y;` has the
if-statement as immediate parent but is not its test, yet the code returns
true, contradicting the claimed iff (formalized as
`claim_directly_in_condition`). -/
theorem c2_counterexample :
    is_directly_in_condition exIfCons = true ∧
    claim_directly_in_condition exIfCons = false :=
  ⟨rfl, rfl⟩

/-- C2 amended: `is_directly_in_condition` is true iff the immediate parent
is a binary expression, an if-statement (any child position, not only the
test), a `typeof` unary expression, or a ternary conditional whose condition
sub-span contains the node's span; `x` in `if (x) {}` is in-condition. -/
theorem c2_amended_directly_in_condition :
    (∀ n : Node, is_directly_in_condition n = true ↔
      ∃ p, n.parent = some p ∧
        (p.kind = NodeKind.BinExpr ∨ p.kind = NodeKind.IfStmt ∨
         (p.kind = NodeKind.UnaryExpr ∧ p.op = UnaryOp.typeOf) ∨
         (p.kind = NodeKind.CondExpr ∧ p.testSpan.contains n.span = true))) ∧
    is_directly_in_condition exIfTest = true := by
  refine ⟨?_, rfl⟩
  intro n
  obtain ⟨k, s, o, t, l, ta, pp⟩ := n
  cases pp with
  | none => simp [is_directly_in_condition, Node.parent]
  | some p =>
    obtain ⟨pk, ps, po, pt, pl, pta, ppp⟩ := p
    cases pk <;>
      simp [is_directly_in_condition, Node.parent, Node.kind, Node.op, Node.testSpan,
        Node.span]

/-- C3: `is_in_left_hand_assignment` is decided by the nearest enclosing
assignment expression — the first assignment found on the ancestor chain
decides by containment in its left-hand-side sub-span, no ancestor is
consulted beyond it, and no assignment ancestor at all yields false; in
`a = b`, `a` qualifies and `b` does not, and a containing outer assignment
does not override a non-containing inner one. -/
theorem c3_left_hand_assignment :
    (∀ n : Node, is_in_left_hand_assignment n =
      (match n.ancestors.find? (fun a => a.kind == NodeKind.AssignExpr) with
       | some a => a.leftSpan.contains n.span
       | none => false)) ∧
    is_in_left_hand_assignment exAssignA = true ∧
    is_in_left_hand_assignment exAssignB = false ∧
    is_in_left_hand_assignment exNestedNode = false ∧
    exOuterAssign.leftSpan.contains exNestedNode.span = true := by
  refine ⟨?_, rfl, rfl, rfl, rfl⟩
  intro n
  exact lhsAssignWalk_eq_find n.span n.ancestors

/-- C10: a node whose immediate parent is a non-null assertion or a const
assertion is always classified as in a type position, because both kinds sit
in the always-type bucket. -/
theorem c10_non_null_and_const_assertion_parents :
    (∀ (k : NodeKind) (s : Span) (o po : UnaryOp) (t l ta ps pt pl pta : Span)
        (pp : Option Node),
        is_in_type (.mk k s o t l ta
          (some (.mk NodeKind.TsNonNullExpr ps po pt pl pta pp))) = true) ∧
    (∀ (k : NodeKind) (s : Span) (o po : UnaryOp) (t l ta ps pt pl pta : Span)
        (pp : Option Node),
        is_in_type (.mk k s o t l ta
          (some (.mk NodeKind.TsConstAssertion ps po pt pl pta pp))) = true) :=
  ⟨fun _ _ _ _ _ _ _ _ _ _ _ _ => rfl, fun _ _ _ _ _ _ _ _ _ _ _ _ => rfl⟩

/-- C4 counterexample: a concrete successful transform whose main
environment's final dependency list is ["zpkg", "apkg"] — the shim package
appended during finalization lands after an alphabetically later mapped
dependency, so the list is not (strictly) sorted by name. -/
theorem c4_counterexample :
    mainDepsOf (transform c4options (.ok c4graph)) = [⟨"zpkg", "1.0.0"⟩, ⟨"apkg", "1.0.0"⟩] ∧
    depsStrictlySortedByName (mainDepsOf (transform c4options (.ok c4graph))) = false :=
  ⟨rfl, rfl⟩

/-- C4 amended: the dependency list produced by `get_dependencies` during
initialization is sorted (non-strictly) by name; shim finalization only ever
appends, at the end of the list, dependencies whose name is absent from the
list it started from — so the final list need not remain sorted by name. -/
theorem c4_amended_dependency_order :
    (∀ mappings : List (ModuleSpecifier × MappedSpecifier),
        (get_dependencies mappings).Pairwise (fun a b => depNameLe a b = true)) ∧
    (∀ (ctx : EnvironmentContext) (path : String),
        ∃ extra : List Dependency,
          (check_add_shim_file_to_environment ctx path).environment.dependencies
            = ctx.environment.dependencies ++ extra ∧
          ∀ d ∈ extra, ∀ d0 ∈ ctx.environment.dependencies, d.name ≠ d0.name) := by
  constructor
  · intro mappings
    exact pairwise_insertionSortBy depNameLe
      (fun a b c => charListLe_trans a.name.toList b.name.toList c.name.toList)
      (fun a b => charListLe_total a.name.toList b.name.toList) _
  · intro ctx path
    cases h : ctx.used_shim with
    | false =>
      simp only [check_add_shim_file_to_environment, h, Bool.false_eq_true, if_false]
      exact ⟨[], by simp, by simp⟩
    | true =>
      simp only [check_add_shim_file_to_environment, h, if_true]
      exact foldl_addShimDep_append ctx.shims ctx.environment.dependencies

/-- C5: after both environments are finalized, the test environment keeps
exactly the dependencies whose (name, version) pair is not present in the
main environment's final list; a same-name different-version pair stays. -/
theorem c5_test_dependency_filter (options : TransformOptions)
    (graph : Except String ModuleGraphData) (m t : EnvironmentContext) (w : List String)
    (h : transformAfterFinalize options graph = .ok (m, t, w)) :
    transform options graph = .ok
      { main := m.environment,
        test := { t.environment with dependencies := (t.environment.dependencies.filter (fun d => !(m.environment.dependencies.contains d))) },
        warnings := w } ∧
    ∀ d : Dependency,
      (d ∈ t.environment.dependencies.filter
          (fun d => !(m.environment.dependencies.contains d))
        ↔ d ∈ t.environment.dependencies ∧ d ∉ m.environment.dependencies) := by
  constructor
  · simp [transform, h]
  · intro d
    simp [List.mem_filter]

/-- Witness for C5 at a concrete run: main maps ("a","1"); test maps
("a","1") and ("b","2"); the exact pair is removed from test, the other
kept. -/
theorem c5_witness :
    transform c5options (.ok c5graph) = .ok
      { main := c5mainCtx.environment,
        test := { c5testCtx.environment with dependencies := (c5testCtx.environment.dependencies.filter (fun d => !(c5mainCtx.environment.dependencies.contains d))) },
        warnings := [] } ∧
    ∀ d : Dependency,
      (d ∈ c5testCtx.environment.dependencies.filter
          (fun d => !(c5mainCtx.environment.dependencies.contains d))
        ↔ d ∈ c5testCtx.environment.dependencies ∧ d ∉ c5mainCtx.environment.dependencies) :=
  c5_test_dependency_filter c5options (.ok c5graph) c5mainCtx c5testCtx [] rfl

/-- C6 counterexample: one non-selected declaration reference exists (its
referrer remote) while the selected reference's referrer is local, and the
transform emits no warning at all for it — not one message per non-selected
reference. -/
theorem c6_counterexample :
    get_declaration_warnings c6specifiers = [] ∧
    (c6specifiers.types.map (fun p => p.2.ignored.length)).sum = 1 :=
  ⟨rfl, rfl⟩

/-- C6 amended: when the selected reference's referrer is local (file
scheme), only the non-selected references whose referrer is also local get a
warning, with the "only one local file" template; when the selected referrer
is remote, every non-selected reference gets a warning with the
"declare it locally via directive" template. -/
theorem c6_amended_declaration_warnings (specifiers : Specifiers) :
    get_declaration_warnings specifiers = specifiers.types.flatMap (fun p =>
      if p.2.selected.referrer.scheme = "file" then
        (p.2.ignored.filter fun dep => dep.referrer.scheme = "file").map
          (fun dep => get_dep_warning p.1 dep p.2.selected warningSelectedLocalMsg)
      else
        p.2.ignored.map
          (fun dep => get_dep_warning p.1 dep p.2.selected warningSelectedRemoteMsg)) := by
  unfold get_declaration_warnings
  rw [foldl_append_eq_flatMap declarationWarningsForEntry specifiers.types []]
  rw [List.nil_append]
  rfl

/-- C7: a synthetic module with content is emitted as `export default` of
the content re-encoded as an escaped template literal, and the two
sequential replaces of the source equal one left-to-right pass over the
original content that never re-scans inserted escapes; a synthetic module
without content contributes nothing to the transform state. -/
theorem c7_synthetic_module_escaping :
    (∀ source : String, syntheticModuleText source =
        "export default JSON.parse(`"
          ++ strip_bom (String.mk (escapeTemplateLiteralSpec source.toList)) ++ "`);") ∧
    (∀ s : List Char, replaceDollarBrace (replaceBacktick s) = escapeTemplateLiteralSpec s) ∧
    (∀ (spz : Specifiers) (fp : ModuleSpecifier → String)
        (et : ModuleSpecifier → Except String EsTransformResult)
        (st : EnvironmentContext × EnvironmentContext × List String) (sp : ModuleSpecifier),
        transformStep ⟨spz, fun _ => ModuleRef.synthetic none, fp, et⟩ st sp = .ok st) := by
  refine ⟨?_, two_pass_escape_eq_single_pass, ?_⟩
  · intro source
    unfold syntheticModuleText
    rw [two_pass_escape_eq_single_pass]
  · intro spz fp et st sp
    rfl

/-- C8: an empty entry-point list fails with the validation error for every
graph outcome (so before any graph build or loader interaction and for
every shim or mapping configuration), and with at least one entry point that
validation error is never the outcome. -/
theorem c8_entry_point_validation :
    (∀ (options : TransformOptions) (graph : Except String ModuleGraphData),
        options.entry_points = [] → transform options graph = .error .noEntryPoints) ∧
    (∀ (options : TransformOptions) (graph : Except String ModuleGraphData),
        options.entry_points ≠ [] → transform options graph ≠ .error .noEntryPoints) := by
  constructor
  · intro options graph h
    simp [transform, transformAfterFinalize, h]
  · intro options graph h hc
    have hne : options.entry_points.isEmpty = false := by
      simpa [List.isEmpty_iff] using h
    unfold transform at hc
    cases htf : transformAfterFinalize options graph with
    | ok v =>
      obtain ⟨m, t, w⟩ := v
      rw [htf] at hc
      simp at hc
    | error e =>
      rw [htf] at hc
      have he : e = TransformError.noEntryPoints := Except.error.inj hc
      subst he
      rw [transformAfterFinalize.eq_def] at htf
      rw [hne] at htf
      simp only [Bool.false_eq_true, if_false] at htf
      cases graph with
      | error ge => simp at htf
      | ok g =>
        simp only at htf
        cases hfold : List.foldlM (transformStep g)
            ((init_contexts options g).1, (init_contexts options g).2,
              get_declaration_warnings g.specifiers)
            (module_order g.specifiers) with
        | error e2 =>
          rw [hfold] at htf
          obtain ⟨s2, m2, hm⟩ := foldlM_transformStep_error g _ _ _ hfold
          rw [hm] at htf
          simp at htf
        | ok v2 =>
          obtain ⟨m2, t2, w2⟩ := v2
          rw [hfold] at htf
          simp at htf

/-- Witness for C8: empty entry points fail with the validation error even
when the graph build itself would fail; one entry point never produces that
error. -/
theorem c8_witness :
    transform c8options (.error "boom") = .error .noEntryPoints ∧
    transform c4options (.ok c4graph) ≠ .error .noEntryPoints :=
  ⟨c8_entry_point_validation.1 c8options (.error "boom") rfl,
   c8_entry_point_validation.2 c4options (.ok c4graph) (by decide)⟩

/-- C9: a polyfill file is added to an environment iff its accumulated
polyfill set is non-empty; in that case the file lands at the given path
after the original files, and every file whose path is a declared entry
point gets the relative polyfill import prepended; with an empty set the
context is returned untouched: no file appears and no entry-point text
gains an extra line. -/
theorem c9_polyfill_file_emission (ctx : EnvironmentContext) (path : String)
    (h1 : (ctx.environment.files.map OutputFile.file_path).Nodup)
    (h2 : ctx.environment.entry_points.Nodup)
    (h3 : path ∉ ctx.environment.files.map OutputFile.file_path)
    (h4 : path ∉ ctx.environment.entry_points) :
    (ctx.polyfills = [] → check_add_polyfill_file_to_environment ctx path = ctx) ∧
    (ctx.polyfills ≠ [] →
      ∃ pf_text, build_polyfill_file ctx.polyfills = some pf_text ∧
        (check_add_polyfill_file_to_environment ctx path).environment.files =
          (ctx.environment.files.map
            (fun f => if f.file_path ∈ ctx.environment.entry_points
                      then prependPolyfillImport path f else f))
            ++ [⟨path, pf_text⟩] ∧
        (check_add_polyfill_file_to_environment ctx path).environment.entry_points
          = ctx.environment.entry_points ∧
        (check_add_polyfill_file_to_environment ctx path).environment.dependencies
          = ctx.environment.dependencies) := by
  constructor
  · intro h
    simp [check_add_polyfill_file_to_environment, build_polyfill_file, h]
  · intro h
    have hb : build_polyfill_file ctx.polyfills
        = some (String.intercalate "\n" ctx.polyfills) := by
      simp [build_polyfill_file, List.isEmpty_iff, h]
    have hg : ∀ f, (prependPolyfillImport path f).file_path = f.file_path := fun _ => rfl
    have hnodup0 : (((ctx.environment.files
        ++ [OutputFile.mk path (String.intercalate "\n" ctx.polyfills)]).map
          OutputFile.file_path)).Nodup := by
      rw [List.map_append]
      rw [List.nodup_append]
      exact ⟨h1, by simp, by simpa [List.disjoint_singleton] using h3⟩
    refine ⟨_, hb, ?_, ?_, ?_⟩
    · simp only [check_add_polyfill_file_to_environment, hb]
      rw [foldl_updateFirstFile (prependPolyfillImport path) hg
        ctx.environment.entry_points _ h2 hnodup0]
      rw [List.map_append]
      congr 1
      simp [h4]
    · simp only [check_add_polyfill_file_to_environment, hb]
    · simp only [check_add_polyfill_file_to_environment, hb]

/-- Witness for C9: a context with one polyfill, an entry-point file and a
non-entry-point file; the polyfill file is appended and only the entry-point
file's text gains the import line. -/
theorem c9_witness :
    ∃ pf_text, build_polyfill_file c9ctx.polyfills = some pf_text ∧
      (check_add_polyfill_file_to_environment c9ctx "polyfill.ts").environment.files =
        (c9ctx.environment.files.map
          (fun f => if f.file_path ∈ c9ctx.environment.entry_points
                    then prependPolyfillImport "polyfill.ts" f else f))
          ++ [⟨"polyfill.ts", pf_text⟩] ∧
      (check_add_polyfill_file_to_environment c9ctx "polyfill.ts").environment.entry_points
        = c9ctx.environment.entry_points ∧
      (check_add_polyfill_file_to_environment c9ctx "polyfill.ts").environment.dependencies
        = c9ctx.environment.dependencies :=
  (c9_polyfill_file_emission c9ctx "polyfill.ts" (by decide) (by decide) (by decide)
    (by decide)).2 (by decide)
